import Mathlib

/-!
Verification development for the groundhog snapshot/restore engine.

The Rust sources under src/ are shallowly embedded below:
- the tree hasher (src/utils/hash.rs: sha256_file, hash_dir_index,
  build_merkle_tree, flatten_tree, diff_trees),
- the path classifier and copy helpers (src/utils/io.rs: make_skipper,
  copy_dir_recursive_excluding, clean_dir_except, copy_selected_files,
  delete_selected_paths),
- the driver selector (src/drivers/selector.rs) and the filesystem
  driver (src/drivers/filesystem.rs),
- the persistence write patterns (src/storage/mod.rs: save_config,
  save_manifest; src/registry.rs: save_registry),
- the snapshot and rollback orchestration (src/ops.rs: do_snapshot,
  do_rollback) restricted to a filesystem scope.

The cryptographic digest is modelled as an injective encoding of its
input (the identity on strings): every claim settled here depends only
on the digest being a deterministic function of the hashed bytes, never
on any property of SHA-256 itself.
-/

namespace Groundhog

/-- Digest model: a deterministic, injective function of the hashed bytes.
Stands in for hex-encoded SHA-256 from src/utils/hash.rs. -/
def sha256Str (s : String) : String := s

/-- Domain separator written before a directory index, from hash_dir_index:
the bytes "tree" followed by a NUL byte. -/
def treeTag : String := "tree" ++ String.singleton (Char.ofNat 0)

/-- Lexicographic strict order on character lists, the order Rust uses
for String: code point order, identical to byte order on UTF-8. -/
def charListLt : List Char → List Char → Bool
  | _, [] => false
  | [], _ :: _ => true
  | a :: as, b :: bs => if a < b then true else if b < a then false else charListLt as bs

/-- Strict string order used by BTreeMap and sort_by in the source. -/
def stringLt (a b : String) : Bool := charListLt a.data b.data

/-- Sorted association map modelling BTreeMap insertion: keeps the list
strictly sorted by key, replacing the value when the key is present. -/
def mapInsert (k : String) (v : α) : List (String × α) → List (String × α)
  | [] => [(k, v)]
  | (k₂, v₂) :: rest =>
    if stringLt k k₂ then (k, v) :: (k₂, v₂) :: rest
    else if k = k₂ then (k, v) :: rest
    else (k₂, v₂) :: mapInsert k v rest

/-- Lookup in an association map, modelling BTreeMap get. -/
def mapFind (k : String) : List (String × α) → Option α
  | [] => none
  | (k₂, v) :: rest => if k = k₂ then some v else mapFind k rest

/-- Stable insertion step of the by-name sort used in build_merkle_tree
(entries.sort_by on the first component). An element is placed after all
existing elements whose key is less than or equal to its own. -/
def insertByKey (x : String × α) : List (String × α) → List (String × α)
  | [] => [x]
  | y :: ys => if stringLt x.1 y.1 then x :: y :: ys else y :: insertByKey x ys

/-- Stable sort by the first (name) component, modelling the
entries.sort_by call in build_merkle_tree. -/
def sortByKey (l : List (String × α)) : List (String × α) :=
  l.foldl (fun acc x => insertByKey x acc) []

/-- Serialization and digest of a sorted directory index, from
hash_dir_index: "tree\x00" then, per entry, name, child hash and a
one-byte kind marker separated by colons and terminated by a newline. -/
def hashDirIndex (index : List (String × String × Char)) : String :=
  sha256Str (index.foldl
    (fun buf t => buf ++ t.1 ++ ":" ++ t.2.1 ++ ":" ++ String.singleton t.2.2 ++ "\n")
    treeTag)

/-- TreeNode from src/config/groundhog.rs. -/
structure TreeNode where
  name : String
  hash : String
  is_dir : Bool
  children : Option (List TreeNode)

/-- Kind triple of a built child entry as consumed by the directory
index: name, hash, and the kind marker d or f. -/
def childTriple (e : String × TreeNode) : String × String × Char :=
  (e.1, e.2.hash, if e.2.is_dir then 'd' else 'f')

/-- Directory index built by inserting each (name, hash, kind) triple
into a BTreeMap in iteration order, from build_merkle_tree. -/
def buildIndex (l : List (String × String × Char)) : List (String × String × Char) :=
  l.foldl (fun m t => mapInsert t.1 t.2 m) []

/-- Hash of a directory given its surviving child entries, exactly as
build_merkle_tree computes it: sort the entries by name, insert their
(name, hash, kind) triples into a BTreeMap, digest the serialized index. -/
def dirHashOfChildren (entries : List (String × TreeNode)) : String :=
  hashDirIndex (buildIndex ((sortByKey entries).map childTriple))

/-- Filesystem value: the input read by the hasher and the copy helpers.
Directory entries carry the read order, which the hasher must not depend
on; entry names within one directory are distinct on a real filesystem. -/
inductive Fs where
  | file (content : String)
  | dir (entries : List (String × Fs))

/-- True when the sub-filesystem is a directory. -/
def Fs.isDir : Fs → Bool
  | .file _ => false
  | .dir _ => true

/-- Condition under which build_merkle_tree drops a built child before
sorting: empty hash, directory, and empty-or-absent child list. Note a
skipped file (empty hash but is_dir false) does not satisfy it. -/
def isEmptySkipPlaceholder (t : TreeNode) : Bool :=
  t.hash == "" && t.is_dir && (match t.children with
    | some cs => cs.isEmpty
    | none => true)

mutual

/-- Recursive tree hasher from build_merkle_tree in src/utils/hash.rs.
The skip predicate receives the path relative to the scope root plus the
is_dir flag (the source passes the absolute path and the skipper strips
the root; the root directory itself is assumed not to carry a reserved
name). A skipped path yields a placeholder node with an empty hash. -/
def buildMerkle (skip : List String → Bool → Bool) (fs : Fs) (rel : List String)
    (nm : String) : TreeNode :=
  match fs with
  | .file c =>
    if skip rel false then { name := nm, hash := "", is_dir := false, children := none }
    else { name := nm, hash := sha256Str c, is_dir := false, children := none }
  | .dir es =>
    if skip rel true then { name := nm, hash := "", is_dir := true, children := some [] }
    else
      let built := buildMerkleEntries skip es rel
      let kept := built.filter fun e => !isEmptySkipPlaceholder e.2
      let sorted := sortByKey kept
      { name := nm, hash := dirHashOfChildren kept,
        is_dir := true, children := some (sorted.map (·.2)) }
termination_by structural fs

/-- Recursion of build_merkle_tree over the entries of one directory, in
read order. -/
def buildMerkleEntries (skip : List String → Bool → Bool)
    (es : List (String × Fs)) (rel : List String) : List (String × TreeNode) :=
  match es with
  | [] => []
  | (n, sub) :: rest =>
    (n, buildMerkle skip sub (rel ++ [n]) n) :: buildMerkleEntries skip rest rel
termination_by structural es

end

/-- Auxiliary size bound used for the termination of the queue-driven
flattening loop. -/
theorem sum_map_sizeOf_lt [SizeOf α] (l : List α) :
    ((l.map fun a => sizeOf a).sum) < sizeOf l := by
  induction l with
  | nil => simp
  | cons a l ih =>
    simp only [List.map_cons, List.sum_cons, List.cons.sizeOf_spec]
    omega

/-- Sum of child sizes after pairing each child with a fixed path. -/
theorem sum_map_pair_sizeOf (p : String) (cs : List TreeNode) :
    (List.map ((fun (e : String × TreeNode) => sizeOf e.2) ∘ fun c => (p, c)) cs).sum
      = (cs.map fun a => sizeOf a).sum := by
  induction cs <;> simp_all [Function.comp]

/-- Path computed for a dequeued node by flatten_tree. The first branch
tests prefix-empty OR name-empty, exactly as the source does, which makes
the second branch unreachable and gives every enqueued child an empty
path. -/
def flatPath (pref nm : String) : String :=
  if pref.isEmpty || nm.isEmpty then ""
  else if pref.isEmpty then nm
  else pref ++ "/" ++ nm

/-- Breadth-first flattening loop of flatten_tree from src/utils/hash.rs,
translated verbatim: dequeue a node, insert its path unless empty, and
enqueue directory children under the computed path. -/
def flattenAux : List (String × TreeNode) → List (String × String × Bool) →
    List (String × String × Bool)
  | [], out => out
  | (pref, ⟨nm, hsh, isd, ch⟩) :: rest, out =>
    let out₂ := if (flatPath pref nm).isEmpty then out
      else mapInsert (flatPath pref nm) (hsh, isd) out
    match isd, ch with
    | true, some cs => flattenAux (rest ++ cs.map fun c => (flatPath pref nm, c)) out₂
    | true, none => flattenAux rest out₂
    | false, _ => flattenAux rest out₂
termination_by q _ => (q.map fun e => sizeOf e.2).sum
decreasing_by
  · simp only [List.map_append, List.sum_append, List.map_cons, List.sum_cons,
      List.map_map, TreeNode.mk.sizeOf_spec, Option.some.sizeOf_spec]
    have h := sum_map_sizeOf_lt (α := TreeNode) cs
    rw [sum_map_pair_sizeOf]
    omega
  · simp only [List.map_cons, List.sum_cons, TreeNode.mk.sizeOf_spec]
    omega
  · simp only [List.map_cons, List.sum_cons, TreeNode.mk.sizeOf_spec]
    omega

/-- Flattening of a tree into a path map, from flatten_tree in
src/utils/hash.rs. -/
def flatten_tree (t : TreeNode) : List (String × String × Bool) :=
  flattenAux [("", t)] []

/-- Result of comparing two trees, from the Diff struct in
src/utils/hash.rs. -/
structure Diff where
  added : List String
  modified : List String
  deleted : List String
deriving DecidableEq

/-- Tree comparison from diff_trees in src/utils/hash.rs: added and
modified come from one pass over the flattening of current, deleted from
a pass over the flattening of baseline. -/
def diff_trees (current baseline : TreeNode) : Diff :=
  let a := flatten_tree current
  let b := flatten_tree baseline
  { added := (a.filter fun e => (mapFind e.1 b).isNone).map (·.1)
    modified := (a.filter fun e => match mapFind e.1 b with
      | some old => old.1 != e.2.1
      | none => false).map (·.1)
    deleted := (b.filter fun e => (mapFind e.1 a).isNone).map (·.1) }

mutual

/-- Flattening of one node as the specification describes it (spec 4.3):
the slash-joined relative path of every node below the root, with its
hash and directory flag. Written for refinement comparison against the
flatten_tree translation above. -/
def flattenSpecNode (pref : String) (t : TreeNode) : List (String × String × Bool) :=
  match t with
  | ⟨nm, hsh, isd, ch⟩ =>
    let path := if pref.isEmpty then nm else pref ++ "/" ++ nm
    (path, hsh, isd) :: (match ch with
      | some cs => flattenSpecList path cs
      | none => [])
termination_by structural t

/-- List part of the specification-described flattening. -/
def flattenSpecList (pref : String) : List TreeNode → List (String × String × Bool)
  | [] => []
  | c :: cs => flattenSpecNode pref c ++ flattenSpecList pref cs
termination_by structural cs => cs

end

/-- Specification-described flattening of a whole tree: all proper
descendants of the root, keyed by slash-joined relative path. -/
def flattenSpec (root : TreeNode) : List (String × String × Bool) :=
  match root.children with
  | some cs => flattenSpecList "" cs
  | none => []

/-- Specification-described flattening collected into a sorted map, for
comparison with the BTreeMap the source intends to build. -/
def specMap (t : TreeNode) : List (String × String × Bool) :=
  (flattenSpec t).foldl (fun m e => mapInsert e.1 e.2 m) []

/-- Tree comparison as the specification describes it (spec 4.3),
computed over the specification-described flattening; used for
refinement comparison against diff_trees. -/
def diff_spec (current baseline : TreeNode) : Diff :=
  let a := specMap current
  let b := specMap baseline
  { added := (a.filter fun e => (mapFind e.1 b).isNone).map (·.1)
    modified := (a.filter fun e => match mapFind e.1 b with
      | some old => old.1 != e.2.1
      | none => false).map (·.1)
    deleted := (b.filter fun e => (mapFind e.1 a).isNone).map (·.1) }

/-- File set selected for copying into the snapshot folder by
do_snapshot (src/ops.rs, step 3): with a baseline, added plus modified
from diff_trees; without one, every non-directory path of the flattened
current tree. -/
def snapshot_to_copy (current : TreeNode) (baseline : Option TreeNode) : List String :=
  match baseline with
  | some base =>
    let d := diff_trees current base
    d.added ++ d.modified
  | none => ((flatten_tree current).filter fun e => !e.2.2).map (·.1)

/-- File set the specification says snapshot creation persists
(spec 4.5 step 4): with a baseline, added plus modified of the
specification diff restricted to non-directory paths; without one, every
file path of the current tree. Written for refinement comparison. -/
def snapshot_to_copy_spec (current : TreeNode) (baseline : Option TreeNode) : List String :=
  match baseline with
  | some base =>
    let d := diff_spec current base
    (d.added ++ d.modified).filter fun p => match mapFind p (specMap current) with
      | some pr => !pr.2
      | none => false
  | none => ((specMap current).filter fun e => !e.2.2).map (·.1)

/-- ASCII lowercase of one character, as Rust to_ascii_lowercase. -/
def asciiLowerChar (c : Char) : Char :=
  if 'A' ≤ c && c ≤ 'Z' then Char.ofNat (c.toNat + 32) else c

/-- ASCII case-insensitive string comparison, as Rust
eq_ignore_ascii_case. -/
def eqIgnoreAsciiCase (a b : String) : Bool :=
  a.data.map asciiLowerChar == b.data.map asciiLowerChar

/-- Reserved workspace directory name. -/
def reservedDirName : String := ".groundhog"

/-- Reserved ignore-file name. -/
def reservedIgnoreName : String := ".groundhogignore"

/-- Reserved manifest file name, special only at the scope root. -/
def manifestFileName : String := "manifest.json"

/-- Shape of a compiled gitignore matcher: a predicate over the path
relative to the scope root and the is_dir flag, standing in for
matched_path_or_any_parents in the ignore crate. -/
abbrev GiPred := List String → Bool → Bool

/-- Path classifier from make_skipper in src/utils/io.rs: skip the
reserved workspace directory and ignore-file names anywhere (ASCII
case-insensitively), skip the manifest file name only as a direct child
of the scope root, then consult the optional gitignore matcher. The
source inspects the file name of the absolute path; the scope root
itself is assumed not to carry a reserved name. -/
def makeSkipper (gi : Option GiPred) (rel : List String) (isDir : Bool) : Bool :=
  (match rel.getLast? with
   | some nm =>
     if eqIgnoreAsciiCase nm reservedDirName || eqIgnoreAsciiCase nm reservedIgnoreName
     then true
     else if eqIgnoreAsciiCase nm manifestFileName && rel.length == 1 then true
     else false
   | none => false)
  || (match gi with
      | some g => g rel isDir
      | none => false)

/-- Inclusion test of copy_dir_recursive_excluding in src/utils/io.rs:
exclude the listed names (ASCII case-insensitively) anywhere, exclude
the manifest file name as a direct child of the copy root, then consult
the optional gitignore matcher of the copy source. -/
def copyInclude (excl : List String) (gi : Option GiPred) (rel : List String)
    (nm : String) (isDir : Bool) : Bool :=
  if excl.any fun ex => eqIgnoreAsciiCase nm ex then false
  else if eqIgnoreAsciiCase nm manifestFileName && rel.length == 1 then false
  else match gi with
    | some g => !g rel isDir
    | none => true

mutual

/-- Pruning filter over a filesystem value: an excluded entry is dropped
together with its whole subtree, exactly as walkdir filter_entry prunes
in copy_dir_recursive_excluding. -/
def filterFs (keep : List String → String → Bool → Bool) (fs : Fs)
    (rel : List String) : Fs :=
  match fs with
  | .file c => .file c
  | .dir es => .dir (filterEntries keep es rel)
termination_by structural fs

/-- Entry part of the pruning filter. -/
def filterEntries (keep : List String → String → Bool → Bool) :
    List (String × Fs) → List String → List (String × Fs)
  | [], _ => []
  | (n, sub) :: rest, rel =>
    if keep (rel ++ [n]) n sub.isDir
    then (n, filterFs keep sub (rel ++ [n])) :: filterEntries keep rest rel
    else filterEntries keep rest rel
termination_by structural es _ => es

end

/-- Tree of entries reproduced at the destination by
copy_dir_excluding_groundhog: everything except the reserved workspace
directory and ignore file anywhere, the manifest file at the copy root,
and gitignore matches. -/
def copy_dir_excluding_groundhog (gi : Option GiPred) (fs : Fs) : Fs :=
  filterFs (fun rel n isd => copyInclude [reservedDirName, reservedIgnoreName] gi rel n isd)
    fs []

/-- Entries of a directory value; empty for a file. -/
def fsEntriesOf : Fs → List (String × Fs)
  | .file _ => []
  | .dir es => es

/-- Lookup of a relative path inside a filesystem value. -/
def fsFind : Fs → List String → Option Fs
  | fs, [] => some fs
  | .file _, _ :: _ => none
  | .dir es, n :: rest =>
    match es.find? fun e => e.1 == n with
    | some e => fsFind e.2 rest
    | none => none

/-- Replace or append one directory entry, keeping the others. -/
def setEntry (es : List (String × Fs)) (n : String) (v : Fs) : List (String × Fs) :=
  match es with
  | [] => [(n, v)]
  | (m, sub) :: rest => if m == n then (m, v) :: rest else (m, sub) :: setEntry rest n v

/-- Write a value at a relative path, creating missing intermediate
directories as fs create_dir_all does. Writing below an existing file is
an error in the source and is never reached by the theorems below. -/
def fsSetPath : Fs → List String → Fs → Fs
  | _, [], v => v
  | fs, n :: rest, v =>
    let es := fsEntriesOf fs
    let sub := ((es.find? fun e => e.1 == n).map (·.2)).getD (.dir [])
    .dir (setEntry es n (fsSetPath sub rest v))

/-- Create a directory at a path unless something already exists there,
as fs create_dir_all does for each copied directory entry. -/
def fsEnsureDir (d : Fs) (p : List String) : Fs :=
  match fsFind d p with
  | some _ => d
  | none => fsSetPath d p (.dir [])

mutual

/-- Preorder walk of directory entries as WalkDir yields them: each
directory before its contents; files carry their content. -/
def walkEntries : List (String × Fs) → List String → List (List String × Option String)
  | [], _ => []
  | (n, sub) :: rest, rel => walkOne n sub rel ++ walkEntries rest rel
termination_by structural es _ => es

/-- Walk of one entry. -/
def walkOne (n : String) (sub : Fs) (rel : List String) :
    List (List String × Option String) :=
  match sub with
  | .file c => [(rel ++ [n], some c)]
  | .dir es => (rel ++ [n], none) :: walkEntries es (rel ++ [n])
termination_by structural sub

end

/-- Copy loop of copy_dir_recursive_excluding applied to an already
filtered source: walk the source, create each directory, copy each file
over the destination. -/
def copyInto (dst src : Fs) : Fs :=
  (walkEntries (fsEntriesOf src) []).foldl
    (fun d pc => match pc.2 with
      | some c => fsSetPath d pc.1 (.file c)
      | none => fsEnsureDir d pc.1) dst

/-- Accumulating splitter for slash-joined paths. -/
def splitPathAux : List Char → List Char → List String
  | [], acc => [String.mk acc.reverse]
  | c :: cs, acc =>
    if c = '/' then String.mk acc.reverse :: splitPathAux cs []
    else splitPathAux cs (c :: acc)

/-- Split a slash-joined relative path into components, as the source
splits with Path join semantics. -/
def splitPath (s : String) : List String := splitPathAux s.data []

/-- Selected-file copy from copy_selected_files in src/utils/io.rs: for
each listed relative path, create the destination parent directories,
then copy when the source is a file, create a directory when it is a
directory, and do nothing at all when the source is absent. Returns the
updated destination and the relative paths whose bytes were copied. -/
def copy_selected_files (src dst : Fs) (files : List String) : Fs × List String :=
  files.foldl (fun acc rel =>
    let p := splitPath rel
    let d₀ := fsEnsureDir acc.1 p.dropLast
    match fsFind src p with
    | some (.file c) => (fsSetPath d₀ p (.file c), acc.2 ++ [rel])
    | some (.dir _) => (fsEnsureDir d₀ p, acc.2)
    | none => (d₀, acc.2)) (dst, [])

/-- Removal of one relative path, as delete_selected_paths removes a
file or a directory tree. -/
def fsRemovePath : Fs → List String → Fs
  | fs, [] => fs
  | .file c, _ :: _ => .file c
  | .dir es, [n] => .dir (es.filter fun e => !(e.1 == n))
  | .dir es, n :: rest => .dir (es.map fun e =>
      if e.1 == n then (e.1, fsRemovePath e.2 rest) else e)

/-- Deletion loop from delete_selected_paths in src/utils/io.rs. -/
def delete_selected_paths (root : Fs) (paths : List String) : Fs :=
  paths.foldl (fun f rel => fsRemovePath f (splitPath rel)) root

/-- Names kept by clean_dir_except_groundhog, compared exactly. -/
def reservedKeepNames : List String := [reservedDirName, reservedIgnoreName]

/-- Root entries surviving clean_dir_except_groundhog. -/
def keepReservedEntries (es : List (String × Fs)) : List (String × Fs) :=
  es.filter fun e => reservedKeepNames.contains e.1

/-- Names of the root entries clean_dir_except_groundhog removes: every
entry whose exact name is not in the keep list, files and directory
trees alike. -/
def cleanRemovedNames (es : List (String × Fs)) : List String :=
  (es.filter fun e => !reservedKeepNames.contains e.1).map (·.1)

/-- Backend driver kinds from src/drivers. -/
inductive DriverKind where
  | filesystem
  | mysql
  | postgres
  | sqlite
deriving DecidableEq

/-- Prefix test over characters, matching Rust starts_with for the ASCII
patterns the selector uses. -/
def strStartsWith (s p : String) : Bool := p.data.isPrefixOf s.data

/-- Suffix test over characters, matching Rust ends_with for the ASCII
patterns the selector uses. -/
def strEndsWith (s p : String) : Bool := p.data.reverse.isPrefixOf s.data.reverse

/-- Driver selection from select_drivers_for_target in
src/drivers/selector.rs: scheme prefixes and the sqlite suffix choose a
database driver, every other target receives the filesystem driver. -/
def select_drivers_for_target (target : String) : List DriverKind :=
  if strStartsWith target "mysql://" then [.mysql]
  else if strStartsWith target "postgres://" || strStartsWith target "postgresql://"
    then [.postgres]
  else if strEndsWith target ".sqlite" || strStartsWith target "sqlite://" then [.sqlite]
  else [.filesystem]

/-- Driver invocation loop shared by do_snapshot and do_rollback in
src/ops.rs: each driver result is inspected, an error is recorded as a
printed warning and iteration continues; the collected warnings are
returned with an ok outcome. -/
def driverPhase : List (Except String Unit) → Except String (List String)
  | [] => .ok []
  | .ok _ :: rest => driverPhase rest
  | .error e :: rest =>
    match driverPhase rest with
    | .ok ws => .ok (e :: ws)
    | .error msg => .error msg

/-- Capture hook of the filesystem driver
(FilesystemDriver::snapshot in src/drivers/filesystem.rs): a full
filtered copy of the scope into the snapshot folder. -/
def filesystemDriverSnapshot (gi : Option GiPred) (scopeFs folder : Fs) : Fs :=
  copyInto folder (copy_dir_excluding_groundhog gi scopeFs)

/-- Rollback hook of the filesystem driver
(FilesystemDriver::rollback in src/drivers/filesystem.rs):
clean_dir_except_groundhog on the live directory, then a full filtered
copy of the snapshot folder over it. -/
def filesystemDriverRollback (giFolder : Option GiPred) (live folder : Fs) : Fs :=
  copyInto (.dir (keepReservedEntries (fsEntriesOf live)))
    (copy_dir_excluding_groundhog giFolder folder)

/-- Stand-in for the serde serialization of a manifest. The manifest
file content is never read back by the embedded pipelines (the manifest
is passed as a TreeNode, per the exact round-trip requirement), and the
file itself is excluded from every later copy; only its presence
matters. -/
def encodeTree (t : TreeNode) : String := t.hash

/-- Snapshot creation for a filesystem scope, from do_snapshot in
src/ops.rs: hash the live tree, copy the selected delta files into the
fresh snapshot folder, save the manifest there, then run the selected
driver (the filesystem driver, which copies the whole filtered scope
into the folder). Returns the snapshot folder and the manifest tree. -/
def snapshot_pipeline (gi : Option GiPred) (fs : Fs) (baseline : Option TreeNode) :
    Fs × TreeNode :=
  let current := buildMerkle (makeSkipper gi) fs [] ""
  let folder₁ := (copy_selected_files fs (.dir []) (snapshot_to_copy current baseline)).1
  let folder₂ := fsSetPath folder₁ [manifestFileName] (.file (encodeTree current))
  let folder₃ := filesystemDriverSnapshot gi fs folder₂
  (folder₃, current)

/-- Rollback for a filesystem scope, from do_rollback in src/ops.rs:
abort when the manifest cannot be loaded; otherwise hash the live tree,
diff the manifest against it, copy added plus modified from the snapshot
folder, delete the deleted paths, then run the selected driver (the
filesystem driver, which wipes the non-reserved live entries and copies
the filtered snapshot folder back). -/
def rollback_pipeline (giLive giFolder : Option GiPred) (manifest : Option TreeNode)
    (live folder : Fs) : Except String Fs :=
  match manifest with
  | none => .error "missing or invalid snapshot manifest"
  | some snapTree =>
    let currentTree := buildMerkle (makeSkipper giLive) live [] ""
    let d := diff_trees snapTree currentTree
    let live₁ := (copy_selected_files folder live (d.added ++ d.modified)).1
    let live₂ := delete_selected_paths live₁ d.deleted
    .ok (filesystemDriverRollback giFolder live₂ folder)

/-- Filesystem side effects recorded for the persistence layer. -/
inductive FsOp where
  | writeFile (path : String) (content : String)
  | removeFile (path : String)
  | renameFile (src dst : String)
deriving DecidableEq

/-- Location of the workspace metadata file, from meta_path in
src/storage/mod.rs. -/
def meta_path (root : String) : String := root ++ "/.groundhog/meta.json"

/-- Write trace of save_config in src/storage/mod.rs: one direct write
of the serialized configuration to the metadata path. -/
def save_config_ops (root : String) (serialized : String) : List FsOp :=
  [.writeFile (meta_path root) serialized]

/-- Location of a snapshot manifest, from manifest_path in
src/storage/mod.rs. -/
def manifest_path (dir : String) : String := dir ++ "/manifest.json"

/-- Write trace of save_manifest in src/storage/mod.rs: one direct
write of the serialized tree to the manifest path. -/
def save_manifest_ops (dir : String) (serialized : String) : List FsOp :=
  [.writeFile (manifest_path dir) serialized]

/-- Registry file location under the configuration directory, from
registry_path in src/registry.rs. -/
def registry_file_path (dir : String) : String := dir ++ "/registry.json"

/-- Temporary file used by save_registry. -/
def registry_tmp_path (dir : String) : String := dir ++ "/registry.json.tmp"

/-- Write trace of save_registry in src/registry.rs: write the
serialized scopes to the temporary file, remove the destination when it
exists, then rename the temporary file over the destination. -/
def save_registry_ops (dir : String) (serialized : String) (destExists : Bool) :
    List FsOp :=
  [.writeFile (registry_tmp_path dir) serialized]
    ++ (if destExists then [.removeFile (registry_file_path dir)] else [])
    ++ [.renameFile (registry_tmp_path dir) (registry_file_path dir)]

/-- Atomic-replace discipline over a write trace, following the wording
of spec section 5: the destination is never written directly, and its
complete new contents arrive by renaming a temporary file over it. -/
def atomicReplace (ops : List FsOp) (dest : String) : Bool :=
  (ops.all fun op => match op with
    | .writeFile p _ => !(p == dest)
    | _ => true)
  && (ops.any fun op => match op with
    | .renameFile _ d => d == dest
    | _ => false)

/-- Path computation of the flatten loop under an empty prefix: the
prefix-empty disjunct fires, so the path is empty whatever the name. -/
theorem flatPath_empty_pref (nm : String) : flatPath "" nm = "" := rfl

/-- Core lemma about the translated flatten loop: when every queued
prefix is empty, the loop never inserts anything, because the computed
path is always empty and children are enqueued under that empty path. -/
theorem flattenAux_empty_prefixes (q : List (String × TreeNode))
    (out : List (String × String × Bool)) (h : ∀ e ∈ q, e.1 = "") :
    flattenAux q out = out := by
  induction q, out using flattenAux.induct with
  | case1 out => simp [flattenAux]
  | case2 pref nm hsh qrest outp cs out₂ ih =>
    have hp : pref = "" := h _ (List.mem_cons_self _ _)
    subst hp
    rw [flattenAux]
    simp only [flatPath_empty_pref]
    have he : ("" : String).isEmpty = true := rfl
    simp only [he, if_true, ite_true]
    apply ih
    intro e hme
    rcases List.mem_append.mp hme with h₁ | h₂
    · exact h _ (List.mem_cons_of_mem _ h₁)
    · rcases List.mem_map.mp h₂ with ⟨c, _, rfl⟩
      rfl
  | case3 pref nm hsh qrest outp out₂ ih =>
    have hp : pref = "" := h _ (List.mem_cons_self _ _)
    subst hp
    rw [flattenAux]
    simp only [flatPath_empty_pref]
    have he : ("" : String).isEmpty = true := rfl
    simp only [he, if_true, ite_true]
    apply ih
    intro e hme
    exact h _ (List.mem_cons_of_mem _ hme)
  | case4 pref nm hsh isd qrest outp out₂ ih =>
    have hp : pref = "" := h _ (List.mem_cons_self _ _)
    subst hp
    rw [flattenAux]
    simp only [flatPath_empty_pref]
    have he : ("" : String).isEmpty = true := rfl
    simp only [he, if_true, ite_true]
    apply ih
    intro e hme
    exact h _ (List.mem_cons_of_mem _ hme)

/-- The translated flatten_tree returns the empty map on every tree:
the root is enqueued under the empty prefix and the prefix-empty branch
propagates the empty path to every descendant. -/
theorem flatten_tree_eq_nil (t : TreeNode) : flatten_tree t = [] := by
  unfold flatten_tree
  exact flattenAux_empty_prefixes _ _ (by simp)

/-- Both flattenings being empty, every diff the program computes is
empty in all three components. -/
theorem diff_trees_eq_empty (a b : TreeNode) : diff_trees a b = ⟨[], [], []⟩ := by
  simp [diff_trees, flatten_tree_eq_nil]

/-- Asymmetry of the character-list order. -/
theorem charListLt_asymm : ∀ (a b : List Char),
    charListLt a b = true → charListLt b a = true → False := by
  intro a
  induction a with
  | nil =>
    intro b h₁ h₂
    cases b with
    | nil => simp [charListLt] at h₁
    | cons y ys => simp [charListLt] at h₂
  | cons x xs ih =>
    intro b h₁ h₂
    cases b with
    | nil => simp [charListLt] at h₁
    | cons y ys =>
      simp only [charListLt] at h₁ h₂
      by_cases hxy : x < y
      · by_cases hyx : y < x
        · exact absurd hxy (lt_asymm hyx)
        · simp [hxy, hyx] at h₂
      · by_cases hyx : y < x
        · simp [hxy, hyx] at h₁
        · simp only [if_neg hxy, if_neg hyx] at h₁ h₂
          exact ih ys h₁ h₂

/-- Connectedness of the character-list order: mutually not-less lists
are equal. -/
theorem charListLt_conn : ∀ (a b : List Char),
    charListLt a b = false → charListLt b a = false → a = b := by
  intro a
  induction a with
  | nil =>
    intro b h₁ _
    cases b with
    | nil => rfl
    | cons y ys => simp [charListLt] at h₁
  | cons x xs ih =>
    intro b h₁ h₂
    cases b with
    | nil => simp [charListLt] at h₂
    | cons y ys =>
      simp only [charListLt] at h₁ h₂
      by_cases hxy : x < y
      · simp [hxy] at h₁
      · by_cases hyx : y < x
        · simp [hxy, hyx] at h₂
        · simp only [if_neg hxy, if_neg hyx] at h₁ h₂
          have hxy2 : x = y := le_antisymm (not_lt.mp hyx) (not_lt.mp hxy)
          rw [hxy2, ih ys h₁ h₂]

/-- Transitivity of the character-list order. -/
theorem charListLt_trans : ∀ (a b c : List Char),
    charListLt a b = true → charListLt b c = true → charListLt a c = true := by
  intro a
  induction a with
  | nil =>
    intro b c h₁ h₂
    cases b with
    | nil => simp [charListLt] at h₁
    | cons y ys =>
      cases c with
      | nil => simp [charListLt] at h₂
      | cons z zs => simp [charListLt]
  | cons x xs ih =>
    intro b c h₁ h₂
    cases b with
    | nil => simp [charListLt] at h₁
    | cons y ys =>
      cases c with
      | nil => simp [charListLt] at h₂
      | cons z zs =>
        simp only [charListLt] at h₁ h₂ ⊢
        by_cases hxy : x < y
        · by_cases hyz : y < z
          · simp [lt_trans hxy hyz]
          · by_cases hzy : z < y
            · simp [hyz, hzy] at h₂
            · have hyz2 : y = z := le_antisymm (not_lt.mp hzy) (not_lt.mp hyz)
              subst hyz2
              simp [hxy]
        · by_cases hyx : y < x
          · simp [hxy, hyx] at h₁
          · have hxy2 : x = y := le_antisymm (not_lt.mp hyx) (not_lt.mp hxy)
            subst hxy2
            simp only [if_neg hxy, lt_irrefl, if_neg (lt_irrefl x)] at h₁
            by_cases hxz : x < z
            · simp [hxz]
            · by_cases hzx : z < x
              · simp [hxz, hzx] at h₂
              · have hxz2 : x = z := le_antisymm (not_lt.mp hzx) (not_lt.mp hxz)
                subst hxz2
                simp only [if_neg hxz, lt_irrefl, if_neg (lt_irrefl x)] at h₂ ⊢
                exact ih ys zs h₁ h₂

/-- Asymmetry of the string order. -/
theorem stringLt_asymm {a b : String} (h₁ : stringLt a b = true)
    (h₂ : stringLt b a = true) : False :=
  charListLt_asymm _ _ h₁ h₂

/-- Connectedness of the string order. -/
theorem stringLt_conn {a b : String} (h₁ : stringLt a b = false)
    (h₂ : stringLt b a = false) : a = b :=
  String.ext (charListLt_conn _ _ h₁ h₂)

/-- Transitivity of the string order. -/
theorem stringLt_trans {a b c : String} (h₁ : stringLt a b = true)
    (h₂ : stringLt b c = true) : stringLt a c = true :=
  charListLt_trans _ _ _ h₁ h₂

/-- Non-strict key order maintained by the insertion sort: the right
element is not strictly below the left one. -/
def keyLe (x y : String × α) : Prop := stringLt y.1 x.1 = false

/-- Membership permutation of one insertion step. -/
theorem insertByKey_perm (x : String × α) (l : List (String × α)) :
    (insertByKey x l).Perm (x :: l) := by
  induction l with
  | nil => simp [insertByKey]
  | cons y ys ih =>
    simp only [insertByKey]
    by_cases h : stringLt x.1 y.1 = true
    · rw [if_pos h]
    · rw [if_neg h]
      exact (ih.cons y).trans (List.Perm.swap x y ys)

/-- One insertion step preserves sortedness. -/
theorem pairwise_insertByKey {l : List (String × α)} (x : String × α)
    (h : l.Pairwise keyLe) : (insertByKey x l).Pairwise keyLe := by
  induction l with
  | nil => simp [insertByKey, keyLe, List.pairwise_cons]
  | cons y ys ih =>
    rcases List.pairwise_cons.mp h with ⟨hy, hys⟩
    simp only [insertByKey]
    by_cases hlt : stringLt x.1 y.1 = true
    · rw [if_pos hlt]
      refine List.pairwise_cons.mpr ⟨?_, h⟩
      intro z hz
      rcases List.mem_cons.mp hz with rfl | hz₂
      · show stringLt z.1 x.1 = false
        cases hb : stringLt z.1 x.1
        · rfl
        · exact (stringLt_asymm hlt hb).elim
      · show stringLt z.1 x.1 = false
        have hzy : stringLt z.1 y.1 = false := hy z hz₂
        cases hb : stringLt z.1 x.1
        · rfl
        · exact absurd (stringLt_trans hb hlt) (by simp [hzy])
    · rw [if_neg hlt]
      refine List.pairwise_cons.mpr ⟨?_, ih hys⟩
      intro z hz
      have hz₂ : z = x ∨ z ∈ ys := by
        simpa using (insertByKey_perm x ys).mem_iff.mp hz
      rcases hz₂ with rfl | hz₃
      · show stringLt z.1 y.1 = false
        exact Bool.not_eq_true _ ▸ (by simpa using hlt)
      · exact hy z hz₃

/-- The insertion sort permutes its input. -/
theorem sortByKey_perm (l : List (String × α)) : (sortByKey l).Perm l := by
  suffices h : ∀ (l acc : List (String × α)),
      (l.foldl (fun a x => insertByKey x a) acc).Perm (l ++ acc) by
    simpa using h l []
  intro l
  induction l with
  | nil => intro acc; simp
  | cons x xs ih =>
    intro acc
    simp only [List.foldl_cons]
    refine (ih (insertByKey x acc)).trans ?_
    refine (List.Perm.append_left xs (insertByKey_perm x acc)).trans ?_
    exact List.perm_middle

/-- The insertion sort produces a sorted list. -/
theorem sortByKey_pairwise (l : List (String × α)) : (sortByKey l).Pairwise keyLe := by
  suffices h : ∀ (l acc : List (String × α)), acc.Pairwise keyLe →
      (l.foldl (fun a x => insertByKey x a) acc).Pairwise keyLe by
    exact h l [] (by simp)
  intro l
  induction l with
  | nil => intro acc hacc; simpa using hacc
  | cons x xs ih =>
    intro acc hacc
    exact ih _ (pairwise_insertByKey x hacc)

/-- Insertion commutes with a key-preserving value map. -/
theorem insertByKey_map (g : β → γ) (x : String × β) (l : List (String × β)) :
    (insertByKey x l).map (fun e => (e.1, g e.2))
      = insertByKey (x.1, g x.2) (l.map fun e => (e.1, g e.2)) := by
  induction l with
  | nil => simp [insertByKey]
  | cons y ys ih =>
    simp only [insertByKey, List.map_cons]
    by_cases h : stringLt x.1 y.1 = true
    · simp [h]
    · simp [h, ih]

/-- The sort commutes with a key-preserving value map. -/
theorem sortByKey_map (g : β → γ) (l : List (String × β)) :
    (sortByKey l).map (fun e => (e.1, g e.2))
      = sortByKey (l.map fun e => (e.1, g e.2)) := by
  suffices h : ∀ (l acc : List (String × β)),
      (l.foldl (fun a x => insertByKey x a) acc).map (fun e => (e.1, g e.2))
        = (l.map fun e => (e.1, g e.2)).foldl (fun a x => insertByKey x a)
            (acc.map fun e => (e.1, g e.2)) by
    simpa using h l []
  intro l
  induction l with
  | nil => intro acc; simp
  | cons x xs ih =>
    intro acc
    simp only [List.foldl_cons, List.map_cons]
    rw [ih, insertByKey_map]

/-- Strict key order on directory index triples. -/
def tripleKeyLt (x y : String × String × Char) : Prop := stringLt x.1 y.1 = true

instance : IsAntisymm (String × String × Char) tripleKeyLt :=
  ⟨fun _ _ h₁ h₂ => (stringLt_asymm h₁ h₂).elim⟩

/-- A sorted list with pairwise-distinct keys is strictly sorted. -/
theorem pairwise_lt_of_pairwise_le_nodup (l : List (String × String × Char))
    (hs : l.Pairwise keyLe) (hn : (l.map Prod.fst).Nodup) :
    l.Pairwise tripleKeyLt := by
  have hne : l.Pairwise fun a b => a.1 ≠ b.1 := List.pairwise_map.mp hn
  refine (hs.and hne).imp ?_
  rintro a b ⟨hle, hab⟩
  show stringLt a.1 b.1 = true
  cases hb : stringLt a.1 b.1
  · exact absurd (stringLt_conn hb hle) hab
  · rfl

/-- Two sorted permutations with duplicate-free keys coincide. -/
theorem sorted_nodup_perm_eq {l₁ l₂ : List (String × String × Char)}
    (hp : l₁.Perm l₂) (h₁ : l₁.Pairwise keyLe) (h₂ : l₂.Pairwise keyLe)
    (hn : (l₁.map Prod.fst).Nodup) : l₁ = l₂ := by
  have hn₂ : (l₂.map Prod.fst).Nodup := ((hp.map Prod.fst).nodup_iff).mp hn
  exact List.eq_of_perm_of_sorted (r := tripleKeyLt) hp
    (pairwise_lt_of_pairwise_le_nodup _ h₁ hn)
    (pairwise_lt_of_pairwise_le_nodup _ h₂ hn₂)

/-- Keys survive the triple projection. -/
theorem map_fst_map_childTriple (l : List (String × TreeNode)) :
    (l.map childTriple).map Prod.fst = l.map Prod.fst := by
  induction l with
  | nil => rfl
  | cons x xs ih => simp [childTriple, ih]

/-- Sorting entries then projecting to triples equals projecting then
sorting, since the projection keeps keys. -/
theorem sortByKey_map_childTriple (l : List (String × TreeNode)) :
    (sortByKey l).map childTriple = sortByKey (l.map childTriple) := by
  have h := sortByKey_map
    (fun t : TreeNode => (t.hash, if t.is_dir then 'd' else 'f')) l
  exact h

/-- C8: directory hashing is deterministic and independent of the
filesystem read order. Two directories whose surviving child entries
carry identical (name, hash, kind) multisets receive the same hash from
the hash_dir_index computation used by build_merkle_tree, provided the
child names are distinct, as they are in any real directory listing.
Re-hashing an unchanged tree is the evaluation of the same pure
function and yields the identical root hash by construction. -/
theorem c8_dir_hash_multiset_deterministic (l₁ l₂ : List (String × TreeNode))
    (hperm : (l₁.map childTriple).Perm (l₂.map childTriple))
    (hnodup : (l₁.map Prod.fst).Nodup) :
    dirHashOfChildren l₁ = dirHashOfChildren l₂ := by
  have hsorted_eq : sortByKey (l₁.map childTriple) = sortByKey (l₂.map childTriple) := by
    apply sorted_nodup_perm_eq
    · exact ((sortByKey_perm _).trans hperm).trans (sortByKey_perm _).symm
    · exact sortByKey_pairwise _
    · exact sortByKey_pairwise _
    · have hkeys : (l₁.map childTriple).map Prod.fst = l₁.map Prod.fst :=
        map_fst_map_childTriple l₁
      have hsp := ((sortByKey_perm (l₁.map childTriple)).map Prod.fst).nodup_iff
      exact hsp.mpr (hkeys ▸ hnodup)
  unfold dirHashOfChildren
  rw [sortByKey_map_childTriple, sortByKey_map_childTriple, hsorted_eq]

/-- Witness for C8 at two read orders of the same two-file directory. -/
theorem c8_witness :
    (([("b.txt", (⟨"b.txt", "world", false, none⟩ : TreeNode)),
        ("a.txt", ⟨"a.txt", "hello", false, none⟩)].map childTriple).Perm
      ([("a.txt", (⟨"a.txt", "hello", false, none⟩ : TreeNode)),
        ("b.txt", ⟨"b.txt", "world", false, none⟩)].map childTriple) ∧
      ([("b.txt", (⟨"b.txt", "world", false, none⟩ : TreeNode)),
        ("a.txt", ⟨"a.txt", "hello", false, none⟩)].map Prod.fst).Nodup) ∧
    dirHashOfChildren
        [("b.txt", ⟨"b.txt", "world", false, none⟩),
          ("a.txt", ⟨"a.txt", "hello", false, none⟩)]
      = dirHashOfChildren
        [("a.txt", ⟨"a.txt", "hello", false, none⟩),
          ("b.txt", ⟨"b.txt", "world", false, none⟩)] :=
  ⟨⟨by decide, by decide⟩,
    c8_dir_hash_multiset_deterministic _ _ (by decide) (by decide)⟩

/-- Every entry surviving the pruning filter was accepted by the keep
predicate with its original kind. -/
theorem mem_filterEntries (keep : List String → String → Bool → Bool)
    (es : List (String × Fs)) (rel : List String) (e : String × Fs)
    (he : e ∈ filterEntries keep es rel) :
    ∃ sub : Fs, (e.1, sub) ∈ es ∧ keep (rel ++ [e.1]) e.1 sub.isDir = true := by
  induction es with
  | nil => simp [filterEntries] at he
  | cons x xs ih =>
    obtain ⟨n, sub⟩ := x
    rw [filterEntries] at he
    by_cases hk : keep (rel ++ [n]) n sub.isDir = true
    · rw [if_pos hk] at he
      rcases List.mem_cons.mp he with rfl | he₂
      · exact ⟨sub, List.mem_cons_self _ _, hk⟩
      · obtain ⟨s, hs, hke⟩ := ih he₂
        exact ⟨s, List.mem_cons_of_mem _ hs, hke⟩
    · rw [if_neg hk] at he
      obtain ⟨s, hs, hke⟩ := ih he
      exact ⟨s, List.mem_cons_of_mem _ hs, hke⟩

/-- Case-insensitively equal strings have equally many characters. -/
theorem eqIgnoreAsciiCase_length {a b : String} (h : eqIgnoreAsciiCase a b = true) :
    a.data.length = b.data.length := by
  unfold eqIgnoreAsciiCase at h
  have h₂ : a.data.map asciiLowerChar = b.data.map asciiLowerChar := by simpa using h
  simpa using congrArg List.length h₂

/-- A case variant of a reserved name is excluded by the copy filter at
any depth. -/
theorem copyInclude_reserved_false (gi : Option GiPred) (rel : List String)
    (nm : String) (isDir : Bool)
    (h : eqIgnoreAsciiCase nm reservedDirName = true ∨
      eqIgnoreAsciiCase nm reservedIgnoreName = true) :
    copyInclude reservedKeepNames gi rel nm isDir = false := by
  rcases h with h | h <;>
    simp [copyInclude, reservedKeepNames, h]

/-- A case variant of the manifest name is excluded by the copy filter
at the copy root. -/
theorem copyInclude_manifest_root_false (gi : Option GiPred) (nm : String)
    (isDir : Bool) (h : eqIgnoreAsciiCase nm manifestFileName = true) :
    copyInclude reservedKeepNames gi [nm] nm isDir = false := by
  by_cases hany : (reservedKeepNames.any fun ex => eqIgnoreAsciiCase nm ex) = true
  · simp [copyInclude, hany]
  · simp [copyInclude, hany, h]

/-- C10: reserved-name exclusion compares ASCII case-insensitively.
Any case variant of the reserved workspace directory or ignore-file name
is skipped by the hashing classifier at any depth and excluded by the
copy filter at any depth; any case variant of the manifest file name is
skipped and excluded as a direct child of the root; consequently no
entry with such a name at the root survives the filtered copy that
performs both snapshot capture and restore, so such a user file is never
captured into a snapshot folder nor written back by a rollback. -/
theorem c10_reserved_names_case_insensitive (nm : String) (gi : Option GiPred) :
    (∀ (rel : List String) (isDir : Bool), rel.getLast? = some nm →
      (eqIgnoreAsciiCase nm reservedDirName = true ∨
        eqIgnoreAsciiCase nm reservedIgnoreName = true) →
      makeSkipper gi rel isDir = true) ∧
    (∀ isDir : Bool, eqIgnoreAsciiCase nm manifestFileName = true →
      makeSkipper gi [nm] isDir = true) ∧
    (∀ (rel : List String) (isDir : Bool),
      (eqIgnoreAsciiCase nm reservedDirName = true ∨
        eqIgnoreAsciiCase nm reservedIgnoreName = true) →
      copyInclude reservedKeepNames gi rel nm isDir = false) ∧
    (∀ isDir : Bool, eqIgnoreAsciiCase nm manifestFileName = true →
      copyInclude reservedKeepNames gi [nm] nm isDir = false) ∧
    ((eqIgnoreAsciiCase nm reservedDirName = true ∨
        eqIgnoreAsciiCase nm reservedIgnoreName = true ∨
        eqIgnoreAsciiCase nm manifestFileName = true) →
      ∀ fs : Fs, ∀ e ∈ fsEntriesOf (copy_dir_excluding_groundhog gi fs), e.1 ≠ nm) := by
  refine ⟨?_, ?_, ?_, ?_, ?_⟩
  · intro rel isDir hlast hres
    rcases hres with h | h <;> simp [makeSkipper, hlast, h]
  · intro isDir h
    simp [makeSkipper, h]
  · intro rel isDir hres
    exact copyInclude_reserved_false gi rel nm isDir hres
  · intro isDir h
    exact copyInclude_manifest_root_false gi nm isDir h
  · intro hres fs e he heq
    cases fs with
    | file c => simp [copy_dir_excluding_groundhog, filterFs, fsEntriesOf] at he
    | dir es =>
      have he₂ : e ∈ filterEntries
          (fun rel n isd => copyInclude reservedKeepNames gi rel n isd) es [] := by
        simpa [copy_dir_excluding_groundhog, filterFs, fsEntriesOf] using he
      obtain ⟨sub, _, hk⟩ := mem_filterEntries _ _ _ _ he₂
      rw [heq] at hk
      simp only [List.nil_append] at hk
      rcases hres with h | h | h
      · rw [copyInclude_reserved_false gi [nm] nm sub.isDir (Or.inl h)] at hk
        exact Bool.false_ne_true hk
      · rw [copyInclude_reserved_false gi [nm] nm sub.isDir (Or.inr h)] at hk
        exact Bool.false_ne_true hk
      · rw [copyInclude_manifest_root_false gi nm sub.isDir h] at hk
        exact Bool.false_ne_true hk

/-- Witness for C10 at two concrete case variants. -/
theorem c10_witness :
    makeSkipper none [".GroundhogIgnore"] false = true ∧
    copyInclude reservedKeepNames none ["MANIFEST.JSON"] "MANIFEST.JSON" true = false :=
  ⟨(c10_reserved_names_case_insensitive ".GroundhogIgnore" none).1
      [".GroundhogIgnore"] false (by decide) (Or.inr (by decide)),
    (c10_reserved_names_case_insensitive "MANIFEST.JSON" none).2.2.2.1 true (by decide)⟩

/-- The driver loop never propagates a driver error: every outcome list
yields an ok result carrying the printed warnings. -/
theorem driverPhase_ok (outs : List (Except String Unit)) :
    ∃ ws, driverPhase outs = .ok ws := by
  induction outs with
  | nil => exact ⟨[], rfl⟩
  | cons o rest ih =>
    obtain ⟨ws, hws⟩ := ih
    cases o with
    | ok u => exact ⟨ws, by simpa [driverPhase] using hws⟩
    | error e => exact ⟨e :: ws, by simp [driverPhase, hws]⟩

/-- Tree A of the diff counterexample: one file below the root. -/
def diffExampleA : TreeNode := ⟨"", "HA", true, some [⟨"a.txt", "h1", false, none⟩]⟩

/-- Tree B of the diff counterexample: an empty root. -/
def diffExampleB : TreeNode := ⟨"", "HB", true, some []⟩

/-- C2: the added, modified and deleted sets do not partition the
symmetric difference of the flattened path sets. At the concrete pair
below, the flattening described by the specification (and by the doc
comment of flatten_tree itself) contains a.txt for A and nothing for B,
so the claimed added set is exactly a.txt; diff_trees instead returns
three empty lists, because the translated flatten_tree maps every tree
to the empty map: its prefix-empty-or-name-empty branch fires for the
root and then for every descendant, leaving the second branch of the
path computation unreachable. -/
theorem c2_diff_partition_violated :
    diff_trees diffExampleA diffExampleB = ⟨[], [], []⟩ ∧
    flattenSpec diffExampleA = [("a.txt", "h1", false)] ∧
    flattenSpec diffExampleB = [] ∧
    "a.txt" ∉ (diff_trees diffExampleA diffExampleB).added := by
  refine ⟨diff_trees_eq_empty _ _, by decide, by decide, ?_⟩
  rw [diff_trees_eq_empty]
  simp

/-- Scope root whose ignore file is itself a skipped file entry. -/
def skipChildFs : Fs := .dir [(".groundhogignore", .file "x"), ("a.txt", .file "hello")]

/-- C3: a node for a path the classifier skipped is kept out of its
parent only when it is a directory. The classifier skips the ignore
file, yet build_merkle_tree inserts it into the children of the root as
a placeholder with an empty hash, because the drop condition demands
is_dir and a skipped file reports is_dir false; the skipped name then
participates in the directory hash. -/
theorem c3_skipped_file_inserted :
    makeSkipper none [".groundhogignore"] false = true ∧
    ((buildMerkle (makeSkipper none) skipChildFs [] "").children.getD []).map
      (fun c => (c.name, c.hash, c.is_dir))
      = [(".groundhogignore", "", false), ("a.txt", "hello", false)] := by
  constructor <;> decide

/-- Scope root of the chain-restore counterexample: an ordinary user
file whose name is a case variant of the manifest name, plus a normal
file. -/
def chainFs : Fs := .dir [("MANIFEST.JSON", .file "x"), ("a.txt", .file "hello")]

/-- C1: rolling back to a snapshot does not always reproduce the
recorded root hash. At the concrete scope below, the manifest records
the skipped user file MANIFEST.JSON as an empty-hash placeholder, the
capture copy excludes it, and the rollback wipe deletes it, so
re-hashing the restored directory (walked here as its entry list) gives
a root hash different from the one the target manifest recorded — the
rollback completed without error yet the guarantee fails. -/
theorem c1_rollback_roothash_mismatch :
    (snapshot_pipeline none chainFs none).2.hash
      = treeTag ++ "MANIFEST.JSON::f\na.txt:hello:f\n" ∧
    (rollback_pipeline none none (some (snapshot_pipeline none chainFs none).2) chainFs
        (snapshot_pipeline none chainFs none).1).toOption.map
      (fun r => walkEntries (fsEntriesOf r) []) = some [(["a.txt"], some "hello")] ∧
    (rollback_pipeline none none (some (snapshot_pipeline none chainFs none).2) chainFs
        (snapshot_pipeline none chainFs none).1).toOption.map
      (fun r => (buildMerkle (makeSkipper none) r [] "").hash)
      = some (treeTag ++ "a.txt:hello:f\n") ∧
    treeTag ++ "a.txt:hello:f\n" ≠ treeTag ++ "MANIFEST.JSON::f\na.txt:hello:f\n" := by
  refine ⟨?_, ?_, ?_, by decide⟩
  · simp only [snapshot_pipeline]
    decide
  · simp only [rollback_pipeline, snapshot_pipeline, snapshot_to_copy]
    simp only [flatten_tree_eq_nil, diff_trees_eq_empty]
    decide
  · simp only [rollback_pipeline, snapshot_pipeline, snapshot_to_copy]
    simp only [flatten_tree_eq_nil, diff_trees_eq_empty]
    decide

/-- Live directory for the minimal-I/O counterexample. -/
def matchLiveFs : Fs := .dir [("b.txt", .file "world")]

/-- C4 counterexample: a live file whose path and hash match the target
manifest exactly is still deleted and rewritten. The target below is a
snapshot of the identical state, so nothing differs, yet the driver wipe
removes b.txt (the only non-reserved root entry) and the follow-up copy
writes it back. -/
theorem c4_matching_file_wiped :
    mapFind "b.txt" (specMap (buildMerkle (makeSkipper none) matchLiveFs [] ""))
      = some ("world", false) ∧
    cleanRemovedNames (fsEntriesOf matchLiveFs) = ["b.txt"] ∧
    (rollback_pipeline none none (some (buildMerkle (makeSkipper none) matchLiveFs [] ""))
        matchLiveFs (snapshot_pipeline none matchLiveFs none).1).toOption.map
      (fun r => walkEntries (fsEntriesOf r) []) = some [(["b.txt"], some "world")] := by
  refine ⟨by decide, by decide, ?_⟩
  simp only [rollback_pipeline, snapshot_pipeline, snapshot_to_copy]
  simp only [flatten_tree_eq_nil, diff_trees_eq_empty]
  decide

/-- C4 amended: the diff phase of rollback performs no I/O because
every diff is empty, and the driver phase deletes every non-reserved
top-level live entry regardless of whether it matches the target. -/
theorem c4_amended_rollback_not_minimal :
    (∀ m c : TreeNode, diff_trees m c = ⟨[], [], []⟩) ∧
    (∀ (es : List (String × Fs)) (n : String) (sub : Fs), (n, sub) ∈ es →
      reservedKeepNames.contains n = false → n ∈ cleanRemovedNames es) := by
  refine ⟨diff_trees_eq_empty, ?_⟩
  intro es n sub hmem hres
  simp only [cleanRemovedNames, List.mem_map]
  refine ⟨(n, sub), ?_, rfl⟩
  rw [List.mem_filter]
  exact ⟨hmem, by simpa using hres⟩

/-- Witness for the amended C4 at a concrete entry list. -/
theorem c4_amended_witness :
    diff_trees ⟨"", "h1", true, some []⟩ ⟨"", "h2", true, some []⟩ = ⟨[], [], []⟩ ∧
    "b.txt" ∈ cleanRemovedNames [("b.txt", Fs.file "world")] :=
  ⟨c4_amended_rollback_not_minimal.1 _ _,
    c4_amended_rollback_not_minimal.2 _ "b.txt" (Fs.file "world")
      (List.mem_singleton.mpr rfl) (by decide)⟩

/-- C5 counterexample: for a plain filesystem target the selector does
return a driver — the filesystem driver — and the orchestration invokes
every selected driver, so a backend driver does run for a plain
filesystem scope. -/
theorem c5_filesystem_driver_selected :
    select_drivers_for_target "/home/user/project" = [DriverKind.filesystem] ∧
    select_drivers_for_target "/home/user/project" ≠ [] := by
  constructor <;> decide

/-- C5 amended: exactly one driver is selected for every target:
database drivers for the recognized address schemes and the filesystem
driver for everything else; driver failures are collected as warnings
and never fail the enclosing operation. -/
theorem c5_amended_driver_always_selected :
    (∀ t : String, (select_drivers_for_target t).length = 1) ∧
    (∀ t : String, strStartsWith t "mysql://" = true →
      select_drivers_for_target t = [DriverKind.mysql]) ∧
    (∀ t : String,
      strStartsWith t "mysql://" = false →
      (strStartsWith t "postgres://" || strStartsWith t "postgresql://") = false →
      (strEndsWith t ".sqlite" || strStartsWith t "sqlite://") = false →
      select_drivers_for_target t = [DriverKind.filesystem]) ∧
    (∀ outs : List (Except String Unit), ∃ ws, driverPhase outs = .ok ws) := by
  refine ⟨?_, ?_, ?_, driverPhase_ok⟩
  · intro t
    unfold select_drivers_for_target
    split_ifs <;> rfl
  · intro t h
    simp [select_drivers_for_target, h]
  · intro t h₁ h₂ h₃
    simp [select_drivers_for_target, h₁, h₂, h₃]

/-- Witness for the amended C5 at concrete targets and outcomes. -/
theorem c5_amended_witness :
    (strStartsWith "mysql://db" "mysql://" = true ∧
      select_drivers_for_target "mysql://db" = [DriverKind.mysql]) ∧
    select_drivers_for_target "/srv/data" = [DriverKind.filesystem] :=
  ⟨⟨by decide, c5_amended_driver_always_selected.2.1 "mysql://db" (by decide)⟩,
    c5_amended_driver_always_selected.2.2.1 "/srv/data" (by decide) (by decide)
      (by decide)⟩

/-- Original scope whose manifest records two files. -/
def lossyOrigFs : Fs := .dir [("a.txt", .file "hello"), ("b.txt", .file "world")]

/-- Damaged snapshot folder: b.txt recorded in the manifest is absent
from storage (for example after an interrupted snapshot). -/
def lossyFolder : Fs := .dir [("manifest.json", .file "m"), ("a.txt", .file "hello")]

/-- C6: a missing or corrupt manifest does abort rollback with a
descriptive error, but bytes missing from storage are silently skipped
rather than surfaced: copy_selected_files performs no operation for an
absent source and returns ok, and the whole rollback below succeeds
while the live b.txt, recorded in the manifest, is deleted by the wipe
and never restored — silent data loss instead of the claimed abort. -/
theorem c6_missing_content_silently_skipped :
    (∀ live folder : Fs,
      rollback_pipeline none none none live folder
        = .error "missing or invalid snapshot manifest") ∧
    ((buildMerkle (makeSkipper none) lossyOrigFs [] "").children.getD []).map
      (fun c => (c.name, c.hash)) = [("a.txt", "hello"), ("b.txt", "world")] ∧
    (copy_selected_files lossyFolder lossyOrigFs ["b.txt"]).2 = [] ∧
    (rollback_pipeline none none (some (buildMerkle (makeSkipper none) lossyOrigFs [] ""))
        lossyOrigFs lossyFolder).toOption.map
      (fun r => walkEntries (fsEntriesOf r) []) = some [(["a.txt"], some "hello")] := by
  refine ⟨fun live folder => rfl, by decide, by decide, ?_⟩
  simp only [rollback_pipeline]
  simp only [diff_trees_eq_empty]
  decide

/-- Current tree of the snapshot-selection counterexample: a.txt was
modified since the baseline, b.txt is unchanged. -/
def snapCur : TreeNode :=
  ⟨"", "HC", true, some [⟨"a.txt", "goodbye", false, none⟩, ⟨"b.txt", "world", false, none⟩]⟩

/-- Baseline tree of the snapshot-selection counterexample. -/
def snapBase : TreeNode :=
  ⟨"", "HB", true, some [⟨"a.txt", "hello", false, none⟩, ⟨"b.txt", "world", false, none⟩]⟩

/-- C7: the delta file set do_snapshot computes is empty in both the
baseline and the no-baseline branch, because it is derived from
diff_trees and flatten_tree, which always return empty results; the set
the specification prescribes is a.txt with a baseline and both files
without one. The snapshot folder is populated by the driver full copy
instead, so every snapshot is a full capture rather than the claimed
delta. -/
theorem c7_persisted_set_mismatch :
    snapshot_to_copy snapCur (some snapBase) = [] ∧
    snapshot_to_copy_spec snapCur (some snapBase) = ["a.txt"] ∧
    snapshot_to_copy snapCur none = [] ∧
    snapshot_to_copy_spec snapCur none = ["a.txt", "b.txt"] := by
  refine ⟨?_, by decide, ?_, by decide⟩
  · simp [snapshot_to_copy, diff_trees_eq_empty]
  · simp [snapshot_to_copy, flatten_tree_eq_nil]

/-- C9 counterexample: the workspace metadata file is written with one
direct write to its final path, not by the claimed temp-then-rename
replace. -/
theorem c9_save_config_not_atomic :
    atomicReplace (save_config_ops "/workspace" "cfg") (meta_path "/workspace") = false ∧
    save_config_ops "/workspace" "cfg"
      = [FsOp.writeFile (meta_path "/workspace") "cfg"] := by
  constructor <;> decide

/-- Paths written by the registry save differ from the final registry
path. -/
theorem registry_tmp_path_ne (dir : String) :
    registry_tmp_path dir ≠ registry_file_path dir := by
  intro h
  have hlen := congrArg String.length h
  have h18 : ("/registry.json.tmp" : String).length = 18 := rfl
  have h14 : ("/registry.json" : String).length = 14 := rfl
  rw [registry_tmp_path, registry_file_path, String.length_append,
    String.length_append, h18, h14] at hlen
  omega

/-- C9 amended: only the global scope registry is saved by atomic
replace (write the temporary file, then rename it over the final path);
the workspace metadata and the snapshot manifest are written directly to
their final paths. -/
theorem c9_amended_registry_only_atomic :
    (∀ (dir s : String) (destExists : Bool),
      atomicReplace (save_registry_ops dir s destExists) (registry_file_path dir) = true) ∧
    (∀ root s : String,
      save_config_ops root s = [FsOp.writeFile (meta_path root) s] ∧
      atomicReplace (save_config_ops root s) (meta_path root) = false) ∧
    (∀ dir s : String,
      save_manifest_ops dir s = [FsOp.writeFile (manifest_path dir) s] ∧
      atomicReplace (save_manifest_ops dir s) (manifest_path dir) = false) := by
  refine ⟨?_, ?_, ?_⟩
  · intro dir s destExists
    have hne : (registry_tmp_path dir == registry_file_path dir) = false :=
      beq_eq_false_iff_ne.mpr (registry_tmp_path_ne dir)
    cases destExists <;>
      simp [atomicReplace, save_registry_ops, hne]
  · intro root s
    exact ⟨rfl, by simp [atomicReplace, save_config_ops]⟩
  · intro dir s
    exact ⟨rfl, by simp [atomicReplace, save_manifest_ops]⟩

end Groundhog
